import Mathlib

/-!
Verification development for the CMDR Kael Discord bot repository.
The Durable Store / TTL Cache / Output Chunker / session-queue /
persona / memory subsystems are shallowly embedded: JavaScript objects
and Maps become finite maps `String → Option α`, strings manipulated
character-by-character become `List Char`, asynchronous fallible
computations become `Option` / `Except` values, and wall-clock time is
an explicit `Nat` parameter (milliseconds, as in `Date.now()`).
-/

namespace KaelBot

/-- Finite map model for JavaScript plain objects and `Map`s. -/
def StoreF (α : Type) : Type := String → Option α

/-- The empty object / empty `Map`. -/
def emptyF {α : Type} : StoreF α := fun _ => none

/-- Property write `obj[k] = v` / `map.set(k, v)`. -/
def insertF {α : Type} (m : StoreF α) (k : String) (v : α) : StoreF α :=
  fun k' => if k' = k then some v else m k'

/-- Deletion `delete obj[k]` / `map.delete(k)`. -/
def eraseF {α : Type} (m : StoreF α) (k : String) : StoreF α :=
  fun k' => if k' = k then none else m k'

theorem insertF_same {α : Type} (m : StoreF α) (k : String) (v : α) :
    insertF m k v k = some v := by
  simp [insertF]

theorem eraseF_same {α : Type} (m : StoreF α) (k : String) :
    eraseF m k k = none := by
  simp [eraseF]

/-! ## TTL cache (src/cache.ts)

`cached(key, ttlSeconds, fn)` prefers the Upstash KV backend when
configured (`useKV`), otherwise a file-backed store of
`{ until, data }` entries.  The remote backend's native TTL expiry
(spec section 3: "In the remote-backed mode, expiry is delegated to
the backend's native TTL") is modelled by `RemoteEntry`/`kvGetR`:
a key is readable exactly while `now` is before its expiry. -/

/-- Entry of the file-backed cache store: `{ until: number; data: any }`. -/
structure CEntry (V : Type) where
  untilMs : Nat
  data : V
deriving DecidableEq

/-- Model of a remote KV record together with its backend-managed expiry;
`expiresAt = none` is a key stored without the EX option, which the backend
never expires. -/
structure RemoteEntry (V : Type) where
  expiresAt : Option Nat
  value : V
deriving DecidableEq

/-- Model of the remote backend `GET`: absent and natively-expired keys read
as not-found; a key stored without expiry always reads back. -/
def kvGetR {V : Type} (now : Nat) (st : StoreF (RemoteEntry V)) (k : String) : Option V :=
  match st k with
  | some e =>
      match e.expiresAt with
      | some t => if now < t then some e.value else none
      | none => some e.value
  | none => none

/-- Model of the adapter's SET: the truthiness guard
`ttlSeconds ? ... EX ... : ...` appends the expiry option only for a nonzero
`ttlSeconds`; for zero the key is stored with no expiry at all. -/
def kvSetR {V : Type} (now : Nat) (st : StoreF (RemoteEntry V)) (k : String) (v : V)
    (ttlSeconds : Nat) : StoreF (RemoteEntry V) :=
  if ttlSeconds ≠ 0 then insertF st k ⟨some (now + ttlSeconds * 1000), v⟩
  else insertF st k ⟨none, v⟩

/-- Module state of src/cache.ts: the backend-selection flag plus both stores. -/
structure CacheCtx (V : Type) where
  useKV : Bool
  remote : StoreF (RemoteEntry V)
  fileStore : StoreF (CEntry V)

/-- Outcome of one `cached()` call: the returned/thrown value, the updated
module state, and whether `fn` was invoked during the call. -/
structure CacheResult (V : Type) where
  result : Except Unit V
  ctx : CacheCtx V
  invoked : Bool

/-- Shared miss path of the file branch of `cached`: invoke `fn` (which may
fail, modelled by `none`), store `{ until: now + ttlSeconds * 1000, data }`
on success, and propagate the failure otherwise. -/
def cachedFileCompute {V : Type} (now : Nat) (key : String) (ttlSeconds : Nat)
    (fn : Option V) (c : CacheCtx V) : CacheResult V :=
  match fn with
  | none => ⟨Except.error (), c, true⟩
  | some v =>
      ⟨Except.ok v,
       { c with fileStore := insertF c.fileStore key ⟨now + ttlSeconds * 1000, v⟩ },
       true⟩

/-- Embedding of `cached(key, ttlSeconds, fn)` from src/cache.ts.
In KV mode the key is namespaced `cache:` and the TTL is the backend's;
in file mode a hit requires `hit.until > now`. -/
def cached {V : Type} (now : Nat) (key : String) (ttlSeconds : Nat) (fn : Option V)
    (c : CacheCtx V) : CacheResult V :=
  if c.useKV then
    match kvGetR now c.remote ("cache:" ++ key) with
    | some v => ⟨Except.ok v, c, false⟩
    | none =>
        match fn with
        | none => ⟨Except.error (), c, true⟩
        | some v =>
            ⟨Except.ok v,
             { c with remote := kvSetR now c.remote ("cache:" ++ key) v ttlSeconds },
             true⟩
  else
    match c.fileStore key with
    | some hit =>
        if now < hit.untilMs then ⟨Except.ok hit.data, c, false⟩
        else cachedFileCompute now key ttlSeconds fn c
    | none => cachedFileCompute now key ttlSeconds fn c

/-- A key reads as a miss at time `now`: no live (non-expired) record in the
active backend. -/
def missAt {V : Type} (now : Nat) (key : String) (c : CacheCtx V) : Bool :=
  if c.useKV then (kvGetR now c.remote ("cache:" ++ key)).isNone
  else
    match c.fileStore key with
    | none => true
    | some hit => decide (hit.untilMs ≤ now)

theorem missAt_mono {V : Type} (now now' : Nat) (key : String) (c : CacheCtx V)
    (h : missAt now key c = true) (hle : now ≤ now') : missAt now' key c = true := by
  unfold missAt at h ⊢
  by_cases hkv : c.useKV
  · simp only [hkv, if_true] at h ⊢
    unfold kvGetR at h ⊢
    cases hrem : c.remote ("cache:" ++ key) with
    | none => simp
    | some e =>
        simp only [hrem] at h ⊢
        cases he : e.expiresAt with
        | none => simp [he] at h
        | some t =>
            simp only [he] at h ⊢
            by_cases hlt : now < t
            · simp [hlt] at h
            · have : ¬ now' < t := by omega
              simp [this]
  · simp only [hkv, if_false] at h ⊢
    cases hf : c.fileStore key with
    | none => simp
    | some hit =>
        simp [hf] at h ⊢
        omega

theorem cached_missAt_invokes {V : Type} (now : Nat) (key : String) (ttl : Nat)
    (fn : Option V) (c : CacheCtx V) (h : missAt now key c = true) :
    (cached now key ttl fn c).invoked = true := by
  unfold missAt at h
  unfold cached
  by_cases hkv : c.useKV
  · simp only [hkv, if_true] at h ⊢
    cases hg : kvGetR now c.remote ("cache:" ++ key) with
    | none => cases fn <;> simp
    | some v => simp [hg] at h
  · simp only [hkv, if_false] at h ⊢
    cases hf : c.fileStore key with
    | none => cases fn <;> simp [cachedFileCompute]
    | some hit =>
        simp [hf] at h
        have : ¬ now < hit.untilMs := by omega
        simp only [this, if_false]
        cases fn <;> simp [cachedFileCompute]

/-- C1 counterexample: in KV mode with TTL 0 the adapter's truthiness guard
omits the expiry option, so the computed value is stored with no expiry —
a later call, long after the claimed 0-second window has elapsed, still
returns the stored value and does not re-invoke the compute function. -/
theorem cached_kv_zero_ttl_counterexample :
    (cached 0 "k" 0 (some 42) (⟨true, emptyF, emptyF⟩ : CacheCtx Nat)).invoked = true ∧
    (cached 5000 "k" 0 (some 7)
        ((cached 0 "k" 0 (some 42) (⟨true, emptyF, emptyF⟩ : CacheCtx Nat)).ctx)).invoked
      = false ∧
    (cached 5000 "k" 0 (some 7)
        ((cached 0 "k" 0 (some 42) (⟨true, emptyF, emptyF⟩ : CacheCtx Nat)).ctx)).result
      = Except.ok 42 := by
  refine ⟨by decide, by decide, rfl⟩

/-- C1 (amended, cache freshness for a nonzero TTL): after a call at `now0`
that actually invoked the compute function and stored its value `v`
(hypothesis `hmiss`), for any NONZERO `ttl` a second call strictly within
`ttl` seconds returns the stored value, leaves the store untouched and does
not invoke the compute function; once `ttl` seconds have elapsed since the
value was stored, the next call invokes its compute function (exactly once
— one `invoked` flag per call) and returns that function's fresh value.
For `ttl = 0` the file branch still recomputes (its `until > now` check
fails at once), but the KV branch stores the value with no expiry, as the
counterexample shows. -/
theorem cached_freshness {V : Type} (key : String) (ttl : Nat) (v w : V)
    (now0 now1 : Nat) (c : CacheCtx V) (fn1 : Option V)
    (hmiss : missAt now0 key c = true) (httl : ttl ≠ 0) :
    (cached now0 key ttl (some v) c).result = Except.ok v ∧
    (now1 < now0 + ttl * 1000 →
      cached now1 key ttl fn1 ((cached now0 key ttl (some v) c).ctx) =
        ⟨Except.ok v, (cached now0 key ttl (some v) c).ctx, false⟩) ∧
    (now0 + ttl * 1000 ≤ now1 →
      (cached now1 key ttl (some w) ((cached now0 key ttl (some v) c).ctx)).invoked = true ∧
      (cached now1 key ttl (some w) ((cached now0 key ttl (some v) c).ctx)).result =
        Except.ok w) := by
  unfold missAt at hmiss
  by_cases hkv : c.useKV
  · simp only [hkv, if_true, Option.isNone_iff_eq_none] at hmiss
    have h0 : cached now0 key ttl (some v) c =
        ⟨Except.ok v, { c with remote := kvSetR now0 c.remote ("cache:" ++ key) v ttl }, true⟩ := by
      unfold cached
      simp [hkv, hmiss]
    have hset : kvSetR now0 c.remote ("cache:" ++ key) v ttl =
        insertF c.remote ("cache:" ++ key) ⟨some (now0 + ttl * 1000), v⟩ := by
      unfold kvSetR
      simp [httl]
    refine ⟨by rw [h0], ?_, ?_⟩
    · intro hlt
      rw [h0]
      unfold cached
      simp only [hkv, if_true]
      have hget : kvGetR now1 (kvSetR now0 c.remote ("cache:" ++ key) v ttl) ("cache:" ++ key) =
          some v := by
        rw [hset]
        unfold kvGetR
        simp [insertF_same, hlt]
      simp [hget]
    · intro hge
      rw [h0]
      unfold cached
      simp only [hkv, if_true]
      have hget : kvGetR now1 (kvSetR now0 c.remote ("cache:" ++ key) v ttl) ("cache:" ++ key) =
          none := by
        rw [hset]
        unfold kvGetR
        have : ¬ now1 < now0 + ttl * 1000 := by omega
        simp [insertF_same, this]
      simp [hget]
  · simp only [hkv, if_false] at hmiss
    have h0 : cached now0 key ttl (some v) c =
        ⟨Except.ok v, { c with fileStore := insertF c.fileStore key ⟨now0 + ttl * 1000, v⟩ }, true⟩ := by
      unfold cached
      cases hf : c.fileStore key with
      | none => simp [hkv, hf, cachedFileCompute]
      | some hit =>
          simp [hf, hkv] at hmiss
          have : ¬ now0 < hit.untilMs := by omega
          simp [hkv, hf, this, cachedFileCompute]
    refine ⟨by rw [h0], ?_, ?_⟩
    · intro hlt
      rw [h0]
      unfold cached
      simp [hkv, insertF_same, hlt]
    · intro hge
      rw [h0]
      unfold cached
      have : ¬ now1 < now0 + ttl * 1000 := by omega
      simp [hkv, insertF_same, this, cachedFileCompute]

/-- Witness for `cached_freshness` at concrete inputs (file mode, empty
store, key "k", TTL 2 s, calls at 0 ms, 1999 ms and — via the third
conjunct — 2000 ms). -/
theorem cached_freshness_witness :
    missAt 0 "k" (⟨false, emptyF, emptyF⟩ : CacheCtx Nat) = true ∧
    (cached 0 "k" 2 (some 42) (⟨false, emptyF, emptyF⟩ : CacheCtx Nat)).result =
      Except.ok 42 := by
  have h := cached_freshness (V := Nat) "k" 2 42 7 0 1999
    (⟨false, emptyF, emptyF⟩ : CacheCtx Nat) (some 7) (by decide) (by decide)
  exact ⟨by decide, h.1⟩

/-- C2 (cache failure is not remembered): on a miss, a failing compute
function propagates its failure to the caller, the module state is left
exactly unchanged (no entry is created or overwritten), and any later call
for the same key is still a miss, hence invokes its compute function
again. -/
theorem cached_failure_uncached {V : Type} (key : String) (ttl ttl' : Nat)
    (now now' : Nat) (c : CacheCtx V) (fn' : Option V)
    (hmiss : missAt now key c = true) (hle : now ≤ now') :
    cached now key ttl none c = ⟨Except.error (), c, true⟩ ∧
    (cached now' key ttl' fn' c).invoked = true := by
  constructor
  · unfold missAt at hmiss
    unfold cached
    by_cases hkv : c.useKV
    · simp only [hkv, if_true, Option.isNone_iff_eq_none] at hmiss
      simp [hkv, hmiss]
    · simp only [hkv, if_false] at hmiss
      cases hf : c.fileStore key with
      | none => simp [hkv, hf, cachedFileCompute]
      | some hit =>
          simp [hf, hkv] at hmiss
          have : ¬ now < hit.untilMs := by omega
          simp [hkv, hf, this, cachedFileCompute]
  · exact cached_missAt_invokes now' key ttl' fn' c (missAt_mono now now' key c hmiss hle)

/-- Witness for `cached_failure_uncached`: a failing compute at time 0 on
an empty file-backed store, retried at time 5000 ms. -/
theorem cached_failure_uncached_witness :
    cached 0 "k" 2 (none : Option Nat) (⟨false, emptyF, emptyF⟩ : CacheCtx Nat) =
      ⟨Except.error (), ⟨false, emptyF, emptyF⟩, true⟩ ∧
    (cached 5000 "k" 3 (some 9) (⟨false, emptyF, emptyF⟩ : CacheCtx Nat)).invoked = true :=
  cached_failure_uncached "k" 2 3 0 5000 (⟨false, emptyF, emptyF⟩ : CacheCtx Nat)
    (some 9) (by decide) (by decide)

/-! ## Output chunker (src/utils/reply.ts)

`splitForDiscord(text, maxLen)` splits a string into chunks along
paragraph / line / sentence boundaries with a final hard cut.  Strings
are modelled as `List Char` so that the character-level splitting and
slicing of the source translate directly. -/

/-- Character-list model of a JavaScript string. -/
abbrev Str := List Char

/-- Whitespace class used by the sentence-splitting regex `\s`. -/
def isSpaceC (c : Char) : Bool :=
  c = ' ' || c = '\t' || c = '\n' || c = '\r'

/-- Sentence-final punctuation of the regex `[\.!?]`. -/
def isPuncC (c : Char) : Bool :=
  c = '.' || c = '!' || c = '?'

/-- The backtick character of the code-fence marker. -/
def btick : Char := Char.ofNat 96

/-- Does the string start with a whitespace character? -/
def headIsSpace : Str → Bool
  | [] => false
  | c :: _ => isSpaceC c

/-- Does the string start with a newline? -/
def headIsNL : Str → Bool
  | [] => false
  | c :: _ => c = '\n'

/-- Worker for `text.split` on the paragraph regex: when `sep` is true we are
inside a run of separator newlines (already known to be of length at least
two, so the whole maximal run is consumed greedily). -/
def parasAux : Bool → Str → Str → List Str
  | false, acc, [] => [acc.reverse]
  | false, acc, c :: rest =>
      if c = '\n' && headIsNL rest then acc.reverse :: parasAux true [] rest
      else parasAux false (c :: acc) rest
  | true, _, [] => [[]]
  | true, _, c :: rest =>
      if c = '\n' then parasAux true [] rest
      else parasAux false [c] rest

/-- Embedding of the paragraph split on a run of two or more newlines. -/
def splitParas (s : Str) : List Str := parasAux false [] s

/-- Worker for `piece.split` on a single newline. -/
def linesAux (acc : Str) : Str → List Str
  | [] => [acc.reverse]
  | c :: rest =>
      if c = '\n' then acc.reverse :: linesAux [] rest
      else linesAux (c :: acc) rest

/-- Embedding of the newline split. -/
def splitLines (s : Str) : List Str := linesAux [] s

/-- Worker for the sentence split (lookbehind on `[\.!?]`, separator `\s+`):
when `skipping` is true we are consuming the whitespace run that follows a
sentence-final punctuation character. -/
def sentAux : Bool → Str → Str → List Str
  | false, acc, [] => [acc.reverse]
  | false, acc, c :: rest =>
      if isPuncC c && headIsSpace rest then (c :: acc).reverse :: sentAux true [] rest
      else sentAux false (c :: acc) rest
  | true, _, [] => [[]]
  | true, _, c :: rest =>
      if isSpaceC c then sentAux true [] rest
      else sentAux false [c] rest

/-- Embedding of the sentence-boundary split. -/
def splitSentences (s : Str) : List Str := sentAux false [] s

/-- Count of non-overlapping occurrences of the triple-backtick marker,
scanning left to right as the global regex match does. -/
def countFences : Str → Nat
  | c1 :: c2 :: c3 :: rest =>
      if c1 = btick && c2 = btick && c3 = btick then countFences rest + 1
      else countFences (c2 :: c3 :: rest)
  | _ => 0

/-- The closing fence appended by `flush` when a chunk holds an odd number
of fence markers. -/
def closeFence : Str := '\n' :: btick :: btick :: btick :: []

/-- The paragraph separator re-inserted between buffered pieces. -/
def nl2 : Str := ['\n', '\n']

/-- Mutable state of one `splitForDiscord` call: the emitted chunks and the
accumulation buffer. -/
structure SS where
  chunks : List Str
  buffer : Str
deriving DecidableEq

/-- Embedding of the inner `flush()`: a non-empty buffer is emitted as a
chunk, first closing an unterminated code fence. -/
def flush (st : SS) : SS :=
  if st.buffer = [] then st
  else
    let b := if countFences st.buffer % 2 ≠ 0 then st.buffer ++ closeFence else st.buffer
    ⟨st.chunks ++ [b], []⟩

/-- Fuelled embedding of the hard-cut loop
`while (rest.length > maxLen) ...`; the fuel `s.length` supplied by
`hardCut` suffices whenever `maxLen ≥ 1` (for `maxLen = 0` the source loop
does not terminate, so no claim concerns it). -/
def hardCutAux (maxLen : Nat) : Nat → Str → SS → Str × SS
  | 0, s, st => (s, st)
  | fuel + 1, s, st =>
      if maxLen < s.length then
        hardCutAux maxLen fuel (s.drop maxLen) ⟨st.chunks ++ [s.take maxLen], st.buffer⟩
      else (s, st)

/-- Hard cut of an oversized sentence into `maxLen`-sized chunks. -/
def hardCut (maxLen : Nat) (s : Str) (st : SS) : Str × SS :=
  hardCutAux maxLen s.length s st

/-- Embedding of the sentence loop `for (const s of pieces)`, threading the
`sent` accumulator and the chunker state. -/
def sentLoop (maxLen : Nat) : List Str → Str → SS → Str × SS
  | [], sent, st => (sent, st)
  | s :: rest, sent, st =>
      let sTmp := if sent = [] then s else sent ++ ' ' :: s
      let head := if st.buffer = [] then 0 else st.buffer.length + 2
      if head + sTmp.length ≤ maxLen then sentLoop maxLen rest sTmp st
      else
        if sent = [] then
          let r := hardCut maxLen s st
          sentLoop maxLen rest r.1 r.2
        else
          let st' :=
            if st.buffer = [] then ⟨st.chunks ++ [sent.take maxLen], st.buffer⟩
            else flush ⟨st.chunks, st.buffer ++ nl2 ++ sent⟩
          sentLoop maxLen rest s st'

/-- Embedding of the line loop `for (const ln of lines)`, threading the
`block` accumulator; the `block = […]` branch delegates to the sentence
loop and then re-buffers its leftover `sent` exactly as the source does. -/
def lineLoop (maxLen : Nat) : List Str → Str → SS → Str × SS
  | [], block, st => (block, st)
  | ln :: rest, block, st =>
      let tmp := if block = [] then ln else block ++ '\n' :: ln
      let headroom := if st.buffer = [] then 0 else st.buffer.length + 2
      if headroom + tmp.length ≤ maxLen then lineLoop maxLen rest tmp st
      else
        if block = [] then
          let pr := sentLoop maxLen (splitSentences ln) [] st
          let st2 :=
            if pr.1 = [] then pr.2
            else
              let cand := if pr.2.buffer = [] then pr.1 else pr.2.buffer ++ nl2 ++ pr.1
              if cand.length ≤ maxLen then ⟨pr.2.chunks, cand⟩
              else { flush pr.2 with buffer := pr.1 }
          lineLoop maxLen rest [] st2
        else
          let st' :=
            if st.buffer = [] then ⟨st.chunks ++ [block.take maxLen], st.buffer⟩
            else flush ⟨st.chunks, st.buffer ++ nl2 ++ block⟩
          lineLoop maxLen rest ln st'

/-- Embedding of `safeAppend(piece)`: try the whole paragraph, otherwise
split it by line (and further by sentence), finally re-buffering a leftover
`block`. -/
def safeAppend (maxLen : Nat) (st : SS) (piece : Str) : SS :=
  let candidate := if st.buffer = [] then piece else st.buffer ++ nl2 ++ piece
  if candidate.length ≤ maxLen then ⟨st.chunks, candidate⟩
  else
    let pr := lineLoop maxLen (splitLines piece) [] st
    if pr.1 = [] then pr.2
    else
      let cand := if pr.2.buffer = [] then pr.1 else pr.2.buffer ++ nl2 ++ pr.1
      if cand.length ≤ maxLen then ⟨pr.2.chunks, cand⟩
      else { flush pr.2 with buffer := pr.1 }

/-- Embedding of `splitForDiscord(text, maxLen)` from src/utils/reply.ts. -/
def splitForDiscord (text : Str) (maxLen : Nat) : List Str :=
  if text = [] then []
  else if text.length ≤ maxLen then [text]
  else (flush ((splitParas text).foldl (safeAppend maxLen) ⟨[], []⟩)).chunks

/-- C3: the chunk-length bound fails.  On the input `"a. " ++ 20 b's` with
limit 10 the source emits the whole 20-character trailing sentence as one
chunk: after the first sentence is flushed, the oversized next sentence is
assigned to `sent` on a path that never reaches the hard-cut loop, so it is
buffered whole and emitted whole.  (Each returned chunk should have had
length at most 10.) -/
theorem splitForDiscord_overlong_chunk :
    splitForDiscord ("a. bbbbbbbbbbbbbbbbbbbb".toList) 10 =
      ["a.".toList, "bbbbbbbbbbbbbbbbbbbb".toList] ∧
    ("bbbbbbbbbbbbbbbbbbbb".toList).length = 20 := by
  decide

/-- C9 counterexample: for the empty string the source returns the empty
chunk sequence, not the claimed one-element sequence holding the empty
string. -/
theorem splitForDiscord_empty_counterexample :
    splitForDiscord ([] : Str) 5 = [] ∧ ([] : List Str) ≠ [([] : Str)] := by
  decide

/-- C9 (amended): for every NON-EMPTY text whose length is at most the
limit, `splitForDiscord` returns exactly the one-element sequence holding
the text (length exactly the limit included); the empty string instead
yields the empty sequence. -/
theorem splitForDiscord_short_identity (text : Str) (L : Nat)
    (hne : text ≠ []) (hlen : text.length ≤ L) :
    splitForDiscord text L = [text] := by
  unfold splitForDiscord
  simp [hne, hlen]

/-- Witness for `splitForDiscord_short_identity` at the boundary case of
length exactly the limit. -/
theorem splitForDiscord_short_identity_witness :
    ("hi".toList ≠ ([] : Str)) ∧ ("hi".toList).length ≤ 2 ∧
    splitForDiscord ("hi".toList) 2 = ["hi".toList] :=
  ⟨by decide, by decide, splitForDiscord_short_identity ("hi".toList) 2 (by decide) (by decide)⟩

/-! ## Persona store (src/persona.ts)

Numeric persona fields are JavaScript numbers; the sliders and the
temperature only ever hold exact decimal values, modelled as rationals.
A `setPersona` patch is a partial record: a field is present in the patch
exactly when the corresponding `Option` is `some`, so the JavaScript
spread `\x7b ...current, ...patch \x7d` is `Option.getD` per field. -/

/-- The categorical tone enumeration. -/
inductive Tone where
  | friendly
  | neutral
  | gruff
  | acerbic
deriving DecidableEq

/-- Embedding of the `Persona` record type. -/
structure Persona where
  temperature : ℚ
  humor : ℚ
  snark : ℚ
  formality : ℚ
  verbosity : ℚ
  drone : ℚ
  tone : Tone
  max_history : ℚ
  darkness : ℚ
  colloquial : ℚ
deriving DecidableEq

/-- The documented default persona (the `DEFAULT` constant). -/
def DEFAULT : Persona :=
  { temperature := 0.9
    humor := 4
    snark := 7
    formality := 3
    verbosity := 6
    drone := 7
    tone := Tone.acerbic
    max_history := 10
    darkness := 8
    colloquial := 8 }

/-- A `Partial Persona` patch. -/
structure PersonaPatch where
  temperature : Option ℚ := none
  humor : Option ℚ := none
  snark : Option ℚ := none
  formality : Option ℚ := none
  verbosity : Option ℚ := none
  drone : Option ℚ := none
  tone : Option Tone := none
  max_history : Option ℚ := none
  darkness : Option ℚ := none
  colloquial : Option ℚ := none
deriving DecidableEq

/-- Embedding of the spread merge `\x7b ...current, ...patch \x7d`. -/
def mergeP (cur : Persona) (q : PersonaPatch) : Persona :=
  { temperature := q.temperature.getD cur.temperature
    humor := q.humor.getD cur.humor
    snark := q.snark.getD cur.snark
    formality := q.formality.getD cur.formality
    verbosity := q.verbosity.getD cur.verbosity
    drone := q.drone.getD cur.drone
    tone := q.tone.getD cur.tone
    max_history := q.max_history.getD cur.max_history
    darkness := q.darkness.getD cur.darkness
    colloquial := q.colloquial.getD cur.colloquial }

/-- File-mode `getPersona`: `db[channelId] || (db[channelId] = ...DEFAULT)` —
returns the stored record, lazily materializing and persisting the default. -/
def getPersonaFile (db : StoreF Persona) (c : String) : Persona × StoreF Persona :=
  match db c with
  | some p => (p, db)
  | none => (DEFAULT, insertF db c DEFAULT)

/-- Errors a store accessor can raise; `syncInKV` is the misuse error thrown
by the synchronous accessors when the store is remote-backed. -/
inductive AccessErr where
  | syncInKV
deriving DecidableEq

/-- Embedding of `getPersona(channelId)`: throws in KV mode, otherwise reads
(and lazily seeds) the file-backed store. -/
def getPersona (useKV : Bool) (db : StoreF Persona) (c : String) :
    Except AccessErr (Persona × StoreF Persona) :=
  if useKV then Except.error AccessErr.syncInKV
  else Except.ok (getPersonaFile db c)

/-- Embedding of `getPersonaAsync(channelId)`.  The remote persona store is
modelled in its parsed view (`kvGet` JSON-parses the raw value, treating
parse failures as absence); on a remote miss the default is seeded. -/
def getPersonaAsync (useKV : Bool) (kvp : StoreF Persona) (db : StoreF Persona)
    (c : String) : Except AccessErr (Persona × StoreF Persona × StoreF Persona) :=
  if useKV then
    match kvp ("persona:" ++ c) with
    | some p => Except.ok (p, kvp, db)
    | none => Except.ok (DEFAULT, insertF kvp ("persona:" ++ c) DEFAULT, db)
  else (getPersona false db c).map (fun pr => (pr.1, kvp, pr.2))

/-- Embedding of the file branch of `setPersona(channelId, patch)`: merge the
patch into the current record and persist the merged result, with no
clamping of the supplied values. -/
def setPersonaFile (db : StoreF Persona) (c : String) (patch : PersonaPatch) :
    Persona × StoreF Persona :=
  let pr := getPersonaFile db c
  let next := mergeP pr.1 patch
  (next, insertF pr.2 c next)

/-- Embedding of `modelParamsFromPersona`: temperature clamped to
[0.2, 1.2] at the point of use, plus the two derived penalties. -/
def modelParamsFromPersona (p : Persona) : ℚ × ℚ × ℚ :=
  (max 0.2 (min 1.2 p.temperature),
   (p.drone - 5) * 0.05,
   (p.verbosity - 5) * 0.03 - (p.colloquial - 5) * 0.01)

/-- A temperature within its declared bounds 0.2 to 1.2. -/
def tempOK (v : ℚ) : Bool := decide (0.2 ≤ v ∧ v ≤ 1.2)

/-- A slider value within its declared bounds 0 to 10. -/
def sliderOK (v : ℚ) : Bool := decide (0 ≤ v ∧ v ≤ 10)

/-- Every bounded numeric field of a persona record within its declared
bounds. -/
def inBounds (p : Persona) : Bool :=
  tempOK p.temperature && sliderOK p.humor && sliderOK p.snark &&
  sliderOK p.formality && sliderOK p.verbosity && sliderOK p.drone &&
  sliderOK p.darkness && sliderOK p.colloquial

/-- Every bounded numeric field supplied by a patch within its declared
bounds. -/
def patchInBounds (q : PersonaPatch) : Bool :=
  Option.all tempOK q.temperature && Option.all sliderOK q.humor &&
  Option.all sliderOK q.snark && Option.all sliderOK q.formality &&
  Option.all sliderOK q.verbosity && Option.all sliderOK q.drone &&
  Option.all sliderOK q.darkness && Option.all sliderOK q.colloquial

/-- Every record held by a persona store within bounds. -/
def DBInBounds (db : StoreF Persona) : Prop :=
  ∀ c p, db c = some p → inBounds p = true

/-- A whole sequence of `setPersona` patches applied to one channel. -/
def applyPatchSeq (db : StoreF Persona) (c : String) (ps : List PersonaPatch) :
    StoreF Persona :=
  ps.foldl (fun d q => (setPersonaFile d c q).2) db

/-! ## Memory store (src/memory.ts) -/

/-- Embedding of the `Memory` record (`at` is the creation timestamp). -/
structure Memory where
  id : Nat
  text : Str
  author : Option Str := none
  atTime : Nat
deriving DecidableEq

/-- The fixed five-entry seed list for the distinguished "global" channel;
`seedAt` is the module-load time captured by `const now = Date.now()`. -/
def SEED (seedAt : Nat) : List Memory :=
  [ { id := 1, text := "Appearance: scarred veteran, cybernetic eye; worn flight suit with old campaign patches.".toList, atTime := seedAt },
    { id := 2, text := "Origin: grew under Oblivion Fleet’s shadow; smuggler → merc → strategist for Black Sun Crew.".toList, atTime := seedAt },
    { id := 3, text := "Philosophy: hesitation kills; patience wins; influence is a lever, not a scoreboard.".toList, atTime := seedAt },
    { id := 4, text := "LTT 14850 is Black Sun Crew’s home system. Retreat cannot occur there.".toList, atTime := seedAt },
    { id := 5, text := "OFL (Oblivion Fleet) is a rival. Keep responses cold, precise, unforgiving.".toList, atTime := seedAt } ]

/-- Prefix test on character lists (the building block of `includes`). -/
def isPrefixB : Str → Str → Bool
  | [], _ => true
  | _ :: _, [] => false
  | a :: as, b :: bs => a = b && isPrefixB as bs

/-- Embedding of `hay.includes(needle)`: substring containment. -/
def containsB (needle : Str) : Str → Bool
  | [] => isPrefixB needle []
  | h :: t => isPrefixB needle (h :: t) || containsB needle t

/-- Embedding of `s.toLowerCase()` over the ASCII range. -/
def toLowerStr (s : Str) : Str := s.map Char.toLower

/-- Decimal digit of the radix-10 `parseInt`. -/
def isDigitC (c : Char) : Bool := '0' ≤ c && c ≤ '9'

/-- Numeric value of the leading run of decimal digits, or `none` when the
run is empty. -/
def digitsVal (s : Str) : Option Nat :=
  let ds := s.takeWhile isDigitC
  if ds = [] then none
  else some (ds.foldl (fun n c => n * 10 + (c.toNat - 48)) 0)

/-- Embedding of `parseInt(spec, 10)`: skip leading whitespace, an optional
sign, then the longest run of decimal digits; `none` models `NaN`.
Trailing non-digit characters are ignored, exactly as `parseInt` does. -/
def parseIntJS (s : Str) : Option Int :=
  let s1 := s.dropWhile isSpaceC
  match s1 with
  | '-' :: rest => (digitsVal rest).map (fun n => -(n : Int))
  | '+' :: rest => (digitsVal rest).map (fun n => (n : Int))
  | _ => (digitsVal s1).map (fun n => (n : Int))

/-- The per-channel memory list, `db[channelId] || []`. -/
def getMemList (db : StoreF (List Memory)) (c : String) : List Memory :=
  (db c).getD []

/-- Embedding of `array.findIndex(pred)`: index of the first match. -/
def findIdxB {α : Type} (p : α → Bool) : List α → Option Nat
  | [] => none
  | x :: xs => if p x then some 0 else (findIdxB p xs).map (· + 1)

/-- The substring predicate used by `forget`: the entry text contains the
spec case-insensitively. -/
def memMatches (spec : Str) (m : Memory) : Bool :=
  containsB (toLowerStr spec) (toLowerStr m.text)

/-- Embedding of the file branch of `forget(channelId, spec)`: try the
`parseInt` index first (1-based, bounds-checked), then the first
case-insensitive substring match; report whether an entry was removed. -/
def forgetFile (db : StoreF (List Memory)) (c : String) (spec : Str) :
    Bool × StoreF (List Memory) :=
  let list := getMemList db c
  if list = [] then (false, db)
  else
    match parseIntJS spec with
    | some idx =>
        if 1 ≤ idx ∧ idx ≤ (list.length : Int) then
          (true, insertF db c (list.eraseIdx (idx - 1).toNat))
        else
          match findIdxB (memMatches spec) list with
          | some i => (true, insertF db c (list.eraseIdx i))
          | none => (false, db)
    | none =>
        match findIdxB (memMatches spec) list with
        | some i => (true, insertF db c (list.eraseIdx i))
        | none => (false, db)

/-- Embedding of `listMemories(channelId)`: throws in KV mode, otherwise the
first 50 entries. -/
def listMemories (useKV : Bool) (db : StoreF (List Memory)) (c : String) :
    Except AccessErr (List Memory) :=
  if useKV then Except.error AccessErr.syncInKV
  else Except.ok ((getMemList db c).take 50)

/-- Embedding of `listMemoriesAsync(channelId)`: first 50 entries of the
remote (`mem:`-prefixed) or file-backed list, in both modes without the
misuse error. -/
def listMemoriesAsync (useKV : Bool) (kvm : StoreF (List Memory))
    (db : StoreF (List Memory)) (c : String) : Except AccessErr (List Memory) :=
  if useKV then Except.ok (((kvm ("mem:" ++ c)).getD []).take 50)
  else Except.ok ((getMemList db c).take 50)

/-- Stable insertion step of the descending sort `(a, b) => b.at - a.at`. -/
def insMem (m : Memory) : List Memory → List Memory
  | [] => [m]
  | x :: xs => if x.atTime < m.atTime then m :: x :: xs else x :: insMem m xs

/-- Stable sort by creation time, most recent first. -/
def sortDescAt (l : List Memory) : List Memory :=
  l.foldl (fun acc m => insMem m acc) []

/-- Join with newlines, as `array.join` with separator `\n`. -/
def joinNL : List Str → Str
  | [] => []
  | [x] => x
  | x :: y :: ys => x ++ '\n' :: joinNL (y :: ys)

/-- The bullet prefix of a memory-context line. -/
def bulletPrefix : Str := "• ".toList

/-- The header line of a non-empty memory context. -/
def memHeader : Str := "MEMORY CONTEXT (recent)".toList

/-- Embedding of `memoryContext(channelId, max)`: in KV mode only the fixed
seed list is formatted (the channel and the store are not consulted); in
file mode the channel list (falling back to the global list) is truncated,
sorted most-recent-first and formatted. -/
def memoryContext (seedAt : Nat) (useKV : Bool) (db : StoreF (List Memory))
    (c : String) (maxItems : Nat) : Str :=
  if useKV then
    let lines := ((SEED seedAt).take maxItems).map (fun m => bulletPrefix ++ m.text)
    if lines = [] then [] else joinNL (memHeader :: lines)
  else
    let list := ((db c).getD ((db "global").getD [])).take maxItems
    if list = [] then []
    else
      let lines := ((sortDescAt list).take maxItems).map (fun m => bulletPrefix ++ m.text)
      joinNL (memHeader :: lines)

/-! ## Pending-delivery queue (src/session.ts) -/

/-- Embedding of the `Pending` record: queued chunks plus an absolute
expiration timestamp. -/
structure Pending where
  chunks : List String
  expires : Nat
deriving DecidableEq

/-- The five-minute expiry window `TTL_MS`. -/
def TTL_MS : Nat := 5 * 60 * 1000

/-- Embedding of `setPending(channelId, chunks)`. -/
def setPending (now : Nat) (st : StoreF Pending) (c : String)
    (chunks : List String) : StoreF Pending :=
  insertF st c ⟨chunks, now + TTL_MS⟩

/-- Embedding of `hasPending(channelId)`, with its lazy pruning of an
expired entry. -/
def hasPending (now : Nat) (st : StoreF Pending) (c : String) :
    Bool × StoreF Pending :=
  match st c with
  | none => (false, st)
  | some p =>
      if p.expires < now then (false, eraseF st c)
      else (decide (0 < p.chunks.length), st)

/-- Embedding of `popNext(channelId)`: `shift() || null` maps an
empty-string head chunk to `null`; a pop that empties the queue deletes the
entry, any other successful pop refreshes the expiration. -/
def popNext (now : Nat) (st : StoreF Pending) (c : String) :
    Option String × StoreF Pending :=
  match st c with
  | none => (none, eraseF st c)
  | some p =>
      if p.expires < now then (none, eraseF st c)
      else
        match p.chunks with
        | [] => (none, eraseF st c)
        | h :: t =>
            let nxt := if h = "" then none else some h
            if t = [] then (nxt, eraseF st c)
            else (nxt, insertF st c ⟨t, now + TTL_MS⟩)

/-! ## Heartbeat publisher (src/index.ts with the storage.upstash adapter)

The heartbeat call site passes the literal object `\x7b ex: 120 \x7d` as
the adapter's `ttlSeconds` parameter, while the adapter interpolates that
parameter into the request path with JavaScript string coercion.  `JSVal`
models the two shapes that argument can take. -/

/-- A JavaScript value passed as the adapter's TTL argument: a number, or
the object literal holding an `ex` field. -/
inductive JSVal where
  | num (n : Nat)
  | objEx (n : Nat)
deriving DecidableEq

/-- JavaScript truthiness of the TTL argument (`ttlSeconds ? ... : ...`). -/
def jsTruthy : JSVal → Bool
  | JSVal.num n => decide (n ≠ 0)
  | JSVal.objEx _ => true

/-- JavaScript template-literal coercion of the TTL argument: an object
stringifies to "[object Object]". -/
def jsTemplateStr : JSVal → String
  | JSVal.num n => toString n
  | JSVal.objEx _ => "[object Object]"

/-- The TTL query-string suffix the Upstash adapter appends to the SET
request path. -/
def upstashTtlQuery : Option JSVal → String
  | some a => if jsTruthy a then "?EX=" ++ jsTemplateStr a else ""
  | none => ""

/-- The fixed heartbeat key. -/
def HEARTBEAT_KEY : String := "health:heartbeat"

/-- The TTL argument the heartbeat call site actually passes. -/
def heartbeatTtlArg : JSVal := JSVal.objEx 120

/-- The liveness payload written by `writeHeartbeat` (before JSON
serialization). -/
structure HeartbeatPayload where
  ts : Nat
  bot : Option String
  userId : Option String
  hostname : String
  ready : Bool
deriving DecidableEq

/-- Construction of the heartbeat payload from `Date.now()`, the optional
logged-in client user (tag and id) and the host name; `ready` is
`Boolean(client.user)`. -/
def writeHeartbeatPayload (now : Nat) (user : Option (String × String))
    (host : String) : HeartbeatPayload :=
  { ts := now
    bot := user.map Prod.fst
    userId := user.map Prod.snd
    hostname := host
    ready := user.isSome }

/-- Error handling of `writeHeartbeat`: the try/catch around the store
write maps every outcome of the underlying `kv.set`, failure included, to
normal completion. -/
def writeHeartbeat (setOutcome : Except String Unit) : Except String Unit :=
  match setOutcome with
  | Except.ok _ => Except.ok ()
  | Except.error _ => Except.ok ()

/-- C6 counterexample: with an empty-string first chunk, the first pop
within the expiry window returns `null` (modelled `none`) instead of the
enqueued chunk, because of the `shift() || null` coercion. -/
theorem popNext_empty_string_counterexample :
    (popNext 0 (setPending 0 emptyF "c" ["", "y", "z"]) "c").1 = none ∧
    (none : Option String) ≠ some "" := by
  decide

/-- C6 (amended): for NON-EMPTY chunk strings `a`, `b`, `d`, after
`setPending` the three pops (each within the expiry window) return the
chunks in order, each non-exhausting pop stores the remaining chunks with
a refreshed expiration, the exhausting pop deletes the entry, and
afterwards `hasPending` is false at every time. -/
theorem pending_exhaustion (st : StoreF Pending) (c : String) (a b d : String)
    (t0 t1 t2 t3 : Nat) (ha : a ≠ "") (hb : b ≠ "") (hd : d ≠ "")
    (h1 : t1 ≤ t0 + TTL_MS) (h2 : t2 ≤ t1 + TTL_MS) (h3 : t3 ≤ t2 + TTL_MS) :
    popNext t1 (setPending t0 st c [a, b, d]) c =
      (some a, insertF (setPending t0 st c [a, b, d]) c ⟨[b, d], t1 + TTL_MS⟩) ∧
    popNext t2 (insertF (setPending t0 st c [a, b, d]) c ⟨[b, d], t1 + TTL_MS⟩) c =
      (some b, insertF (insertF (setPending t0 st c [a, b, d]) c ⟨[b, d], t1 + TTL_MS⟩) c
        ⟨[d], t2 + TTL_MS⟩) ∧
    popNext t3 (insertF (insertF (setPending t0 st c [a, b, d]) c ⟨[b, d], t1 + TTL_MS⟩) c
        ⟨[d], t2 + TTL_MS⟩) c =
      (some d, eraseF (insertF (insertF (setPending t0 st c [a, b, d]) c ⟨[b, d], t1 + TTL_MS⟩) c
        ⟨[d], t2 + TTL_MS⟩) c) ∧
    (eraseF (insertF (insertF (setPending t0 st c [a, b, d]) c ⟨[b, d], t1 + TTL_MS⟩) c
        ⟨[d], t2 + TTL_MS⟩) c) c = none ∧
    (∀ t : Nat,
      (hasPending t (eraseF (insertF (insertF (setPending t0 st c [a, b, d]) c
        ⟨[b, d], t1 + TTL_MS⟩) c ⟨[d], t2 + TTL_MS⟩) c) c).1 = false) := by
  have e1 : setPending t0 st c [a, b, d] c = some ⟨[a, b, d], t0 + TTL_MS⟩ := by
    simp [setPending, insertF]
  have n1 : ¬ (t0 + TTL_MS < t1) := by omega
  have n2 : ¬ (t1 + TTL_MS < t2) := by omega
  have n3 : ¬ (t2 + TTL_MS < t3) := by omega
  refine ⟨?_, ?_, ?_, ?_, ?_⟩
  · unfold popNext
    simp [e1, n1, ha]
  · unfold popNext
    simp [insertF_same, n2, hb]
  · unfold popNext
    simp [insertF_same, n3, hd]
  · exact eraseF_same _ _
  · intro t
    unfold hasPending
    simp [eraseF_same]

/-- Witness for `pending_exhaustion` on concrete chunks and times. -/
theorem pending_exhaustion_witness :
    popNext 1 (setPending 0 emptyF "c" ["x", "y", "z"]) "c" =
      (some "x", insertF (setPending 0 emptyF "c" ["x", "y", "z"]) "c" ⟨["y", "z"], 1 + TTL_MS⟩) ∧
    (eraseF (insertF (insertF (setPending 0 emptyF "c" ["x", "y", "z"]) "c"
        ⟨["y", "z"], 1 + TTL_MS⟩) "c" ⟨["z"], 2 + TTL_MS⟩) "c") "c" = none := by
  have h := pending_exhaustion emptyF "c" "x" "y" "z" 0 1 2 3
    (by decide) (by decide) (by decide) (by decide) (by decide) (by decide)
  exact ⟨h.1, h.2.2.2.1⟩

/-- C7: in KV mode the synchronous accessors `getPersona` and
`listMemories` raise the misuse error for every channel, while in file
mode they never do and return the stored record (or the documented
default) respectively the first 50 stored entries; the asynchronous
accessors return a value in both modes, never that misuse error. -/
theorem dual_accessor_discipline (c : String) (db : StoreF Persona)
    (mdb : StoreF (List Memory)) (kvp : StoreF Persona)
    (kvm : StoreF (List Memory)) :
    getPersona true db c = Except.error AccessErr.syncInKV ∧
    listMemories true mdb c = Except.error AccessErr.syncInKV ∧
    getPersona false db c = Except.ok (getPersonaFile db c) ∧
    (getPersonaFile db c).1 = (db c).getD DEFAULT ∧
    listMemories false mdb c = Except.ok ((getMemList mdb c).take 50) ∧
    (∀ u : Bool, ∃ r, getPersonaAsync u kvp db c = Except.ok r) ∧
    (∀ u : Bool, ∃ r, listMemoriesAsync u kvm mdb c = Except.ok r) := by
  refine ⟨rfl, rfl, rfl, ?_, rfl, ?_, ?_⟩
  · unfold getPersonaFile
    cases h : db c <;> simp [h]
  · intro u
    cases u
    · exact ⟨_, rfl⟩
    · unfold getPersonaAsync
      cases h : kvp ("persona:" ++ c) <;> simp [h]
  · intro u
    cases u <;> exact ⟨_, rfl⟩

/-- C8: the try/catch in `writeHeartbeat` swallows every write failure (the
operation always completes normally), the payload carries the timestamp,
identity and readiness fields, and the write targets the fixed key — but
the TTL argument actually interpolated into the adapter's request is the
object coercion "[object Object]", not the number 120, because the call
site passes an options object where the adapter expects a number of
seconds. -/
theorem heartbeat_swallow_and_ttl_arg :
    (∀ r : Except String Unit, writeHeartbeat r = Except.ok ()) ∧
    HEARTBEAT_KEY = "health:heartbeat" ∧
    (∀ (now : Nat) (user : Option (String × String)) (host : String),
      (writeHeartbeatPayload now user host).ts = now ∧
      (writeHeartbeatPayload now user host).hostname = host ∧
      (writeHeartbeatPayload now user host).ready = user.isSome) ∧
    upstashTtlQuery (some heartbeatTtlArg) = "?EX=[object Object]" ∧
    upstashTtlQuery (some heartbeatTtlArg) ≠ "?EX=" ++ toString (120 : Nat) := by
  refine ⟨fun r => ?_, rfl, fun now user host => ⟨rfl, rfl, rfl⟩, rfl, by decide⟩
  cases r <;> rfl

/-- C10: in KV mode `memoryContext` ignores both the channel id and the
memory store — it is the same fixed seed-derived text for every channel
and every store state, so remembered entries never influence it. -/
theorem memoryContext_kv_channel_independent (seedAt : Nat)
    (db1 db2 : StoreF (List Memory)) (c1 c2 : String) (maxItems : Nat) :
    memoryContext seedAt true db1 c1 maxItems =
      memoryContext seedAt true db2 c2 maxItems := rfl

/-- Merging an in-bounds field value: the patched field keeps the bound the
patch and the current record each satisfy. -/
theorem all_getD {α : Type} (f : α → Bool) (o : Option α) (d : α)
    (ho : Option.all f o = true) (hd : f d = true) : f (o.getD d) = true := by
  cases o with
  | none => simpa using hd
  | some a => simpa [Option.all] using ho

/-- A patch supplying only in-bounds values keeps a record in bounds. -/
theorem inBounds_merge (cur : Persona) (q : PersonaPatch)
    (hc : inBounds cur = true) (hq : patchInBounds q = true) :
    inBounds (mergeP cur q) = true := by
  simp only [inBounds, patchInBounds, Bool.and_eq_true] at hc hq ⊢
  obtain ⟨⟨⟨⟨⟨⟨⟨h1, h2⟩, h3⟩, h4⟩, h5⟩, h6⟩, h7⟩, h8⟩ := hc
  obtain ⟨⟨⟨⟨⟨⟨⟨g1, g2⟩, g3⟩, g4⟩, g5⟩, g6⟩, g7⟩, g8⟩ := hq
  exact ⟨⟨⟨⟨⟨⟨⟨all_getD _ _ _ g1 h1, all_getD _ _ _ g2 h2⟩, all_getD _ _ _ g3 h3⟩,
    all_getD _ _ _ g4 h4⟩, all_getD _ _ _ g5 h5⟩, all_getD _ _ _ g6 h6⟩,
    all_getD _ _ _ g7 h7⟩, all_getD _ _ _ g8 h8⟩

/-- Writing an in-bounds record preserves a store's bounds invariant. -/
theorem DBInBounds_insert (db : StoreF Persona) (c : String) (p : Persona)
    (hdb : DBInBounds db) (hp : inBounds p = true) :
    DBInBounds (insertF db c p) := by
  intro c' p' h
  unfold insertF at h
  by_cases hc : c' = c
  · rw [if_pos hc] at h
    injection h with h
    subst h
    exact hp
  · rw [if_neg hc] at h
    exact hdb c' p' h

/-- The documented default persona is within bounds. -/
theorem inBounds_DEFAULT : inBounds DEFAULT = true := by
  norm_num [inBounds, tempOK, sliderOK, DEFAULT]

/-- The file-mode read (with its lazy default seeding) yields an in-bounds
record and preserves the store invariant. -/
theorem getPersonaFile_inBounds (db : StoreF Persona) (c : String)
    (hdb : DBInBounds db) :
    inBounds (getPersonaFile db c).1 = true ∧ DBInBounds (getPersonaFile db c).2 := by
  unfold getPersonaFile
  cases h : db c with
  | some p => exact ⟨hdb c p h, hdb⟩
  | none => exact ⟨inBounds_DEFAULT, DBInBounds_insert db c DEFAULT hdb inBounds_DEFAULT⟩

/-- One in-bounds `setPersona` patch preserves the store invariant. -/
theorem setPersonaFile_preserves (db : StoreF Persona) (c : String)
    (q : PersonaPatch) (hdb : DBInBounds db) (hq : patchInBounds q = true) :
    DBInBounds (setPersonaFile db c q).2 := by
  obtain ⟨h1, h2⟩ := getPersonaFile_inBounds db c hdb
  exact DBInBounds_insert _ c _ h2 (inBounds_merge _ q h1 hq)

/-- C4 counterexample: the store does not clamp at the point of mutation —
patching `humor` to 99 stores 99, outside the declared 0 to 10 bounds. -/
theorem setPersona_unclamped_counterexample :
    ((setPersonaFile emptyF "chan" { humor := some 99 }).1).humor = 99 ∧
    sliderOK ((setPersonaFile emptyF "chan" { humor := some 99 }).1).humor = false := by
  constructor
  · rfl
  · decide

/-- C4 (amended): the store itself performs no clamping, so the bounds
invariant holds only conditionally: starting from a store whose records
are in bounds, any sequence of `setPersona` patches each of which supplies
only in-bounds values (as the admin command handler guarantees by clamping
slider values to 0..10 before calling the store) leaves every stored
record's bounded numeric fields within their declared bounds; the
temperature is additionally clamped to [0.2, 1.2] at the point of use by
`modelParamsFromPersona`, for every stored value. -/
theorem persona_bounds_with_clamped_patches (db : StoreF Persona) (c : String)
    (ps : List PersonaPatch) (hdb : DBInBounds db)
    (hps : ∀ q ∈ ps, patchInBounds q = true) :
    DBInBounds (applyPatchSeq db c ps) ∧
    (∀ p : Persona,
      0.2 ≤ (modelParamsFromPersona p).1 ∧ (modelParamsFromPersona p).1 ≤ 1.2) := by
  constructor
  · induction ps generalizing db with
    | nil => exact hdb
    | cons q qs ih =>
        have hstep : DBInBounds (setPersonaFile db c q).2 :=
          setPersonaFile_preserves db c q hdb (hps q (List.mem_cons_self q qs))
        exact ih _ hstep (fun r hr => hps r (List.mem_cons_of_mem q hr))
  · intro p
    refine ⟨le_max_left _ _, max_le (by norm_num) (min_le_left _ _)⟩

/-- Witness for `persona_bounds_with_clamped_patches`: one in-bounds patch
applied to the empty store. -/
theorem persona_bounds_witness :
    DBInBounds (applyPatchSeq emptyF "chan" [{ humor := some 3 }]) ∧
    (∀ p : Persona,
      0.2 ≤ (modelParamsFromPersona p).1 ∧ (modelParamsFromPersona p).1 ≤ 1.2) :=
  persona_bounds_with_clamped_patches emptyF "chan" [{ humor := some 3 }]
    (fun _ p h => Option.noConfusion h) (by decide)

/-- A found index is within the list. -/
theorem findIdxB_lt_length {α : Type} (p : α → Bool) (l : List α) (i : Nat)
    (h : findIdxB p l = some i) : i < l.length := by
  induction l generalizing i with
  | nil => simp [findIdxB] at h
  | cons x xs ih =>
      unfold findIdxB at h
      by_cases hx : p x = true
      · rw [if_pos hx] at h
        injection h with h
        simp only [List.length_cons]
        omega
      · rw [if_neg hx] at h
        cases hfx : findIdxB p xs with
        | none =>
            rw [hfx] at h
            exact Option.noConfusion h
        | some j =>
            rw [hfx] at h
            simp only [Option.map_some'] at h
            injection h with h
            have := ih j hfx
            simp only [List.length_cons]
            omega

/-- Reading back the channel list just written. -/
theorem getMemList_insertF (db : StoreF (List Memory)) (c : String)
    (l : List Memory) : getMemList (insertF db c l) c = l := by
  simp [getMemList, insertF]

/-- The index branch of `forget` applies: the spec parses to an integer
that is a valid 1-based position. -/
def validIdx (spec : Str) (l : List Memory) : Bool :=
  match parseIntJS spec with
  | some n => decide (1 ≤ n ∧ n ≤ (l.length : Int))
  | none => false

/-- C5 counterexample: the spec "1x" is not a numeric string, and only the
second entry contains it as a substring, yet `forget` removes the FIRST
entry: `parseInt` reads the leading digit prefix of "1x" as position 1,
so the index branch fires before the substring branch is consulted. -/
theorem forget_numeric_prefix_counterexample :
    (forgetFile (insertF emptyF "c" [{ id := 1, text := "alpha".toList, atTime := 0 },
        { id := 2, text := "1x beta".toList, atTime := 0 }]) "c" ("1x".toList)).1 = true ∧
    ((forgetFile (insertF emptyF "c" [{ id := 1, text := "alpha".toList, atTime := 0 },
        { id := 2, text := "1x beta".toList, atTime := 0 }]) "c" ("1x".toList)).2 "c") =
      some [{ id := 2, text := "1x beta".toList, atTime := 0 }] ∧
    memMatches ("1x".toList) { id := 1, text := "alpha".toList, atTime := 0 } = false ∧
    memMatches ("1x".toList) { id := 2, text := "1x beta".toList, atTime := 0 } = true := by
  refine ⟨?_, ?_, ?_, ?_⟩ <;> decide

/-- C5 (amended): `forget` removes at most one entry.  The position branch
is keyed on JavaScript `parseInt`, which accepts any spec with a leading
integer prefix (not only fully numeric strings): if that prefix is a valid
1-based position `n` the entry at position `n` is removed and true
returned; only otherwise is the first case-insensitive substring match
removed; when neither branch applies the result is false and the store is
unchanged. -/
theorem forget_characterization (db : StoreF (List Memory)) (c : String)
    (spec : Str) :
    ((getMemList (forgetFile db c spec).2 c).length =
      if (forgetFile db c spec).1 then (getMemList db c).length - 1
      else (getMemList db c).length) ∧
    ((forgetFile db c spec).1 = false → (forgetFile db c spec).2 = db) ∧
    (∀ n : Int, parseIntJS spec = some n → 1 ≤ n → n ≤ ((getMemList db c).length : Int) →
      forgetFile db c spec = (true, insertF db c ((getMemList db c).eraseIdx (n - 1).toNat))) ∧
    (validIdx spec (getMemList db c) = false →
      ∀ i, findIdxB (memMatches spec) (getMemList db c) = some i →
        forgetFile db c spec = (true, insertF db c ((getMemList db c).eraseIdx i))) ∧
    (validIdx spec (getMemList db c) = false →
      findIdxB (memMatches spec) (getMemList db c) = none →
      forgetFile db c spec = (false, db)) := by
  by_cases hL : getMemList db c = []
  · have hF : forgetFile db c spec = (false, db) := by
      unfold forgetFile
      simp [hL]
    refine ⟨?_, ?_, ?_, ?_, ?_⟩
    · rw [hF]
      simp [hL]
    · intro _
      rw [hF]
    · intro n _ h1 h2
      rw [hL] at h2
      simp at h2
      omega
    · intro _ i hi
      rw [hL] at hi
      simp [findIdxB] at hi
    · intro _ _
      exact hF
  · cases hp : parseIntJS spec with
    | some idx =>
        by_cases hv : 1 ≤ idx ∧ idx ≤ ((getMemList db c).length : Int)
        · have hF : forgetFile db c spec =
              (true, insertF db c ((getMemList db c).eraseIdx (idx - 1).toNat)) := by
            unfold forgetFile
            simp [hL, hp, hv]
          have hlt : (idx - 1).toNat < (getMemList db c).length := by omega
          have hlen := List.length_eraseIdx_add_one hlt
          refine ⟨?_, ?_, ?_, ?_, ?_⟩
          · rw [hF]
            have hgl : getMemList (insertF db c ((getMemList db c).eraseIdx (idx - 1).toNat)) c
                = (getMemList db c).eraseIdx (idx - 1).toNat := getMemList_insertF db c _
            rw [hgl, if_pos rfl]
            omega
          · rw [hF]
            intro h
            simp at h
          · intro n hpn _ _
            injection hpn with hpn
            subst hpn
            exact hF
          · intro hvi
            unfold validIdx at hvi
            rw [hp] at hvi
            simp [hv] at hvi
          · intro hvi
            unfold validIdx at hvi
            rw [hp] at hvi
            simp [hv] at hvi
        · cases hf : findIdxB (memMatches spec) (getMemList db c) with
          | some i =>
              have hF : forgetFile db c spec =
                  (true, insertF db c ((getMemList db c).eraseIdx i)) := by
                unfold forgetFile
                simp [hL, hp, hv, hf]
              have hlt := findIdxB_lt_length _ _ _ hf
              have hlen := List.length_eraseIdx_add_one hlt
              refine ⟨?_, ?_, ?_, ?_, ?_⟩
              · rw [hF]
                simp only [getMemList_insertF]
                simp
                omega
              · rw [hF]
                intro h
                simp at h
              · intro n hpn h1 h2
                injection hpn with hpn
                subst hpn
                exact absurd ⟨h1, h2⟩ hv
              · intro _ i' hi'
                injection hi' with hi'
                subst hi'
                exact hF
              · intro _ hnone
                exact Option.noConfusion hnone
          | none =>
              have hF : forgetFile db c spec = (false, db) := by
                unfold forgetFile
                simp [hL, hp, hv, hf]
              refine ⟨?_, ?_, ?_, ?_, ?_⟩
              · rw [hF]
                simp
              · intro _
                rw [hF]
              · intro n hpn h1 h2
                injection hpn with hpn
                subst hpn
                exact absurd ⟨h1, h2⟩ hv
              · intro _ i' hi'
                exact Option.noConfusion hi'
              · intro _ _
                exact hF
    | none =>
        cases hf : findIdxB (memMatches spec) (getMemList db c) with
        | some i =>
            have hF : forgetFile db c spec =
                (true, insertF db c ((getMemList db c).eraseIdx i)) := by
              unfold forgetFile
              simp [hL, hp, hf]
            have hlt := findIdxB_lt_length _ _ _ hf
            have hlen := List.length_eraseIdx_add_one hlt
            refine ⟨?_, ?_, ?_, ?_, ?_⟩
            · rw [hF]
              simp only [getMemList_insertF]
              simp
              omega
            · rw [hF]
              intro h
              simp at h
            · intro n hpn _ _
              exact Option.noConfusion hpn
            · intro _ i' hi'
              injection hi' with hi'
              subst hi'
              exact hF
            · intro _ hnone
              exact Option.noConfusion hnone
        | none =>
            have hF : forgetFile db c spec = (false, db) := by
              unfold forgetFile
              simp [hL, hp, hf]
            refine ⟨?_, ?_, ?_, ?_, ?_⟩
            · rw [hF]
              simp
            · intro _
              rw [hF]
            · intro n hpn _ _
              exact Option.noConfusion hpn
            · intro _ i' hi'
              exact Option.noConfusion hi'
            · intro _ _
              exact hF

/-- Witness for `forget_characterization`: a substring-only spec on a
one-entry store. -/
theorem forget_characterization_witness :
    validIdx ("alpha".toList)
      (getMemList (insertF emptyF "m" [{ id := 1, text := "alpha".toList, atTime := 0 }]) "m") =
      false ∧
    forgetFile (insertF emptyF "m" [{ id := 1, text := "alpha".toList, atTime := 0 }]) "m"
        ("alpha".toList) =
      (true, insertF (insertF emptyF "m" [{ id := 1, text := "alpha".toList, atTime := 0 }]) "m"
        ((getMemList (insertF emptyF "m"
          [{ id := 1, text := "alpha".toList, atTime := 0 }]) "m").eraseIdx 0)) :=
  ⟨by decide,
    (forget_characterization (insertF emptyF "m"
        [{ id := 1, text := "alpha".toList, atTime := 0 }]) "m" ("alpha".toList)).2.2.2.1
      (by decide) 0 (by decide)⟩

end KaelBot
